import Mathlib

/-!
Shallow embedding of the scene-segmentation engine of
`src/services/videoUtils.ts` (`processVideoScenes`), over exact rationals.

JavaScript numbers are modelled as `ℚ`; byte values of the RGBA pixel
buffers are likewise rationals (the claims constrain them to `[0, 255]`
where it matters).  The host decode resource ("seek to `t`, draw, read
pixels / encode a thumbnail") is abstracted by two functions
`captureData : ℚ → List ℚ` (the `Uint8ClampedArray` of the downscaled
frame) and `captureUrl : ℚ → String` (the JPEG data-URL), exactly the two
pieces of a capture that the algorithm consumes.
-/

namespace VideoUtils

/-- `FrameDiff` record of `src/types.ts`. -/
structure FrameDiff where
  timestamp : ℚ
  diffScore : ℚ
  frameIndex : Nat
deriving Repr, DecidableEq, Inhabited

/-- `Scene` record of `src/types.ts` (the fields `processVideoScenes`
populates; `analysis`/`isAnalyzing`/`error` are attached later by the UI
and never touched by the segmentation engine). -/
structure Scene where
  id : Nat
  startTime : ℚ
  endTime : ℚ
  thumbnailDataUrl : String
deriving Repr, DecidableEq, Inhabited

/-- One sampled frame, as pushed onto `frames` in the adaptive path:
`{ data: imageData.data, time, dataUrl }`. -/
structure Frame where
  data : List ℚ
  time : ℚ
  dataUrl : String
deriving Repr, DecidableEq, Inhabited

/-- `ProcessVideoOptions` of `src/services/videoUtils.ts`, with the
source's default values (`sampleRate = 1`, `diffThreshold = 18`).
`onProgress` is omitted: it only reports percentages and never feeds back
into the computation. -/
structure ProcessVideoOptions where
  sampleRate : ℚ := 1
  diffThreshold : ℚ := 18
  fixedSegmentDuration : Option ℚ := none
deriving Repr, DecidableEq, Inhabited

/-- The inner loop of the difference scorer:
`for (let k = 0; k < prev.length; k += 4) { gray1 = 0.299*prev[k] + 0.587*prev[k+1] + 0.114*prev[k+2]; ...; diffSum += |gray1 - gray2| }`.
The recursion consumes four bytes of each buffer per step and stops when
fewer than four remain on either side (in the source both buffers are
same-size RGBA arrays, so the loop bound `k < prev.length` coincides). -/
def diffSumAux : List ℚ → List ℚ → ℚ
  | r1 :: g1 :: b1 :: _ :: rest1, r2 :: g2 :: b2 :: _ :: rest2 =>
      |(299/1000 * r1 + 587/1000 * g1 + 114/1000 * b1) -
       (299/1000 * r2 + 587/1000 * g2 + 114/1000 * b2)| + diffSumAux rest1 rest2
  | _, _ => 0

/-- `const avgDiff = diffSum / (prev.length / 4);` — the per-pair
difference score. -/
def avgDiff (prev curr : List ℚ) : ℚ :=
  diffSumAux prev curr / ((prev.length : ℚ) / 4)

/-- The sequential capture loop
`while (currentTime <= duration) { await captureFrame(currentTime); currentTime += sampleRate; }`,
rendered with explicit fuel (the loop itself terminates for every
`sampleRate > 0` and finite `duration`; the fuel chosen in `sampleTimes`
is exactly the number of iterations in that case). -/
def sampleTimesAux (dur r : ℚ) : Nat → ℚ → List ℚ
  | 0, _ => []
  | fuel + 1, t => if t ≤ dur then t :: sampleTimesAux dur r fuel (t + r) else []

/-- The timestamps at which the adaptive path captures frames:
`0, sampleRate, 2·sampleRate, …` while `t ≤ duration`. -/
def sampleTimes (dur r : ℚ) : List ℚ :=
  sampleTimesAux dur r (⌊dur / r⌋.toNat + 1) 0

/-- `for (let i = 1; i < frames.length; i++) { ...; diffs.push({ timestamp: frames[i].time, diffScore: avgDiff, frameIndex: i }); }` -/
def computeDiffs (frames : List Frame) : List FrameDiff :=
  (List.range (frames.length - 1)).map fun j =>
    { timestamp := (frames.getD (j + 1) default).time
      diffScore := avgDiff (frames.getD j default).data (frames.getD (j + 1) default).data
      frameIndex := j + 1 }

/-- The `diffs.forEach((d, idx) => ...)` cut-detection pass, with the
mutable `scenes` array and `sceneStartIdx` threaded explicitly together
with the running position `idx`. -/
def detectCutsAux (frames : List Frame) (th : ℚ) :
    List FrameDiff → Nat → List Scene → Nat → List Scene × Nat
  | [], _, scenes, s => (scenes, s)
  | d :: rest, idx, scenes, s =>
    if th < d.diffScore then
      detectCutsAux frames th rest (idx + 1)
        (scenes ++ [{ id := scenes.length + 1
                      startTime := (frames.getD s default).time
                      endTime := (frames.getD (idx + 1) default).time
                      thumbnailDataUrl := (frames.getD ((s + (idx + 1)) / 2) default).dataUrl }])
        (idx + 1)
    else
      detectCutsAux frames th rest (idx + 1) scenes s

/-- The trailing scene pushed after the cut-detection pass, given the
pass's result `r = (scenes, sceneStartIdx)`:
`{ id: scenes.length + 1, startTime: frames[sceneStartIdx].time, endTime: duration, thumbnailDataUrl: frames[floor((sceneStartIdx + frames.length - 1) / 2)].dataUrl }`. -/
def finalScene (frames : List Frame) (duration : ℚ) (r : List Scene × Nat) : Scene :=
  { id := r.1.length + 1
    startTime := (frames.getD r.2 default).time
    endTime := duration
    thumbnailDataUrl := (frames.getD ((r.2 + (frames.length - 1)) / 2) default).dataUrl }

/-- The cut-detection pass followed by
`if (frames.length > 0 && sceneStartIdx < frames.length) { scenes.push({ ..., endTime: duration, ... }) }`. -/
def detectScenes (frames : List Frame) (duration th : ℚ) (diffs : List FrameDiff) :
    List Scene :=
  if 0 < frames.length ∧ (detectCutsAux frames th diffs 0 [] 0).2 < frames.length then
    (detectCutsAux frames th diffs 0 [] 0).1 ++
      [finalScene frames duration (detectCutsAux frames th diffs 0 [] 0)]
  else (detectCutsAux frames th diffs 0 [] 0).1

/-- The `frames` array filled by the sequential capture loop: one record
`{ data, time, dataUrl }` per sampled timestamp. -/
def capturedFrames (duration sampleRate : ℚ)
    (captureData : ℚ → List ℚ) (captureUrl : ℚ → String) : List Frame :=
  (sampleTimes duration sampleRate).map fun t =>
    { data := captureData t, time := t, dataUrl := captureUrl t : Frame }

/-- The whole visual-detection (content-adaptive) path: sequential capture,
difference scoring, cut detection; resolves with `{ scenes, diffs }`. -/
def processAdaptive (duration sampleRate th : ℚ)
    (captureData : ℚ → List ℚ) (captureUrl : ℚ → String) :
    List Scene × List FrameDiff :=
  (detectScenes (capturedFrames duration sampleRate captureData captureUrl) duration th
      (computeDiffs (capturedFrames duration sampleRate captureData captureUrl)),
   computeDiffs (capturedFrames duration sampleRate captureData captureUrl))

/-- `const totalSegments = Math.ceil(duration / fixedSegmentDuration);`
(`Int.toNat` renders the fact that the `for` loop over
`i < totalSegments` runs zero times when the ceiling is non-positive). -/
def totalSegments (duration fsd : ℚ) : Nat := ⌈duration / fsd⌉.toNat

/-- The timestamp actually assigned to `video.currentTime` for segment `i`
of the fixed path: `Math.min(thumbTime, duration - 0.1)` where
`thumbTime = start + (end - start) / 2`. -/
def fixedSeekTime (duration fsd : ℚ) (i : Nat) : ℚ :=
  let start := (i : ℚ) * fsd
  let e := min (start + fsd) duration
  min (start + (e - start) / 2) (duration - 1/10)

/-- The fixed-duration path: `ceil(duration / fixedSegmentDuration)`
segments, segment `i` spanning `[i·fsd, min((i+1)·fsd, duration)]`, its
thumbnail captured at `fixedSeekTime`.  Returns the empty `diffs` list the
source allocates in this mode. -/
def processFixed (duration fsd : ℚ) (captureUrl : ℚ → String) :
    List Scene × List FrameDiff :=
  ((List.range (totalSegments duration fsd)).map fun i =>
    { id := i + 1
      startTime := (i : ℚ) * fsd
      endTime := min ((i : ℚ) * fsd + fsd) duration
      thumbnailDataUrl := captureUrl (fixedSeekTime duration fsd i) },
   [])

/-- `processVideoScenes` after metadata is known: the strategy switch
`if (fixedSegmentDuration) { ... } else { ... }` (JavaScript truthiness:
`0` selects the adaptive path). -/
def processVideoScenes (duration : ℚ) (opts : ProcessVideoOptions)
    (captureData : ℚ → List ℚ) (captureUrl : ℚ → String) :
    List Scene × List FrameDiff :=
  match opts.fixedSegmentDuration with
  | some fsd =>
      if fsd ≠ 0 then processFixed duration fsd captureUrl
      else processAdaptive duration opts.sampleRate opts.diffThreshold captureData captureUrl
  | none => processAdaptive duration opts.sampleRate opts.diffThreshold captureData captureUrl

/-- The driver including its error channel.  The source rejects before any
capture when `!isFinite(video.duration)`; since `ℚ` has no non-finite
values this guard is carried as the boolean `durationIsFinite`.  (The two
remaining `reject` sites — a null canvas context and a media error — are
host failures outside the algorithm, and a failing capture aborts the
run, per spec §4.1; none of them depends on the sampled data.)  On every
other input the source `resolve`s with the scenes/diffs pair: there is no
rejection path for an empty frame list. -/
def processVideoScenesE (durationIsFinite : Bool) (duration : ℚ)
    (opts : ProcessVideoOptions)
    (captureData : ℚ → List ℚ) (captureUrl : ℚ → String) :
    Except String (List Scene × List FrameDiff) :=
  if durationIsFinite then
    Except.ok (processVideoScenes duration opts captureData captureUrl)
  else
    Except.error "Could not determine video duration"

/-- An RGBA pixel `(R, G, B, A)`. -/
abbrev Pixel : Type := ℚ × ℚ × ℚ × ℚ

/-- ITU-R-style luminance of a pixel, `Y = 0.299R + 0.587G + 0.114B`
(alpha ignored). -/
def luminance (p : Pixel) : ℚ :=
  299/1000 * p.1 + 587/1000 * p.2.1 + 114/1000 * p.2.2.1

/-- A pixel list laid out as the flat RGBA byte buffer the source
iterates over. -/
def flattenRGBA : List Pixel → List ℚ
  | [] => []
  | (r, g, b, a) :: rest => r :: g :: b :: a :: flattenRGBA rest

/-- Stated from the spec's words (§4.2): "take the absolute luminance
delta per pixel, and output the arithmetic mean over all pixels". -/
def specMeanLumaDiff (ps1 ps2 : List Pixel) : ℚ :=
  (((ps1.zip ps2).map fun q => |luminance q.1 - luminance q.2|).sum) / (ps1.length : ℚ)

/-- Number of detected cuts: the diffs whose score strictly exceeds the
threshold (`d.diffScore > diffThreshold` in the source). -/
def cutCount (diffs : List FrameDiff) (th : ℚ) : Nat :=
  diffs.countP fun d => decide (th < d.diffScore)

/-- All channel values of a pixel lie in `[0, 255]`. -/
def pixelInRange (p : Pixel) : Prop :=
  (0 ≤ p.1 ∧ p.1 ≤ 255) ∧ (0 ≤ p.2.1 ∧ p.2.1 ≤ 255) ∧
  (0 ≤ p.2.2.1 ∧ p.2.2.1 ≤ 255) ∧ (0 ≤ p.2.2.2 ∧ p.2.2.2 ≤ 255)

instance (p : Pixel) : Decidable (pixelInRange p) := by
  unfold pixelInRange; infer_instance

/-- Contiguity of a scene list: each scene ends where the next begins. -/
def contiguous (scenes : List Scene) : Prop :=
  List.Chain' (fun a b => a.endTime = b.startTime) scenes

instance (scenes : List Scene) : Decidable (contiguous scenes) := by
  unfold contiguous; infer_instance

/-! ### Sampler lemmas -/

theorem sampleTimesAux_mem_le (dur r : ℚ) :
    ∀ (fuel : Nat) (t : ℚ), ∀ x ∈ sampleTimesAux dur r fuel t, x ≤ dur := by
  intro fuel
  induction fuel with
  | zero => intro t x hx; simp [sampleTimesAux] at hx
  | succ n ih =>
    intro t x hx
    by_cases ht : t ≤ dur
    · simp only [sampleTimesAux, if_pos ht] at hx
      rcases List.mem_cons.mp hx with rfl | h
      · exact ht
      · exact ih _ x h
    · simp [sampleTimesAux, ht] at hx

theorem sampleTimesAux_head (dur r : ℚ) (fuel : Nat) (t : ℚ) :
    ∀ y ∈ (sampleTimesAux dur r fuel t).head?, y = t := by
  cases fuel with
  | zero => simp [sampleTimesAux]
  | succ n => by_cases ht : t ≤ dur <;> simp [sampleTimesAux, ht]

theorem sampleTimesAux_chain (dur r : ℚ) (hr : 0 < r) :
    ∀ (fuel : Nat) (t : ℚ), List.Chain' (· < ·) (sampleTimesAux dur r fuel t) := by
  intro fuel
  induction fuel with
  | zero => intro t; simp [sampleTimesAux]
  | succ n ih =>
    intro t
    by_cases ht : t ≤ dur
    · simp only [sampleTimesAux, if_pos ht]
      rw [List.chain'_cons']
      refine ⟨fun y hy => ?_, ih _⟩
      rw [sampleTimesAux_head dur r n (t + r) y hy]
      linarith
    · simp [sampleTimesAux, ht]

theorem sampleTimes_eq_cons (dur r : ℚ) (h : 0 ≤ dur) :
    sampleTimes dur r = 0 :: sampleTimesAux dur r ⌊dur / r⌋.toNat r := by
  simp [sampleTimes, sampleTimesAux, h, zero_add]

theorem sampleTimes_ne_nil (dur r : ℚ) (h : 0 ≤ dur) : sampleTimes dur r ≠ [] := by
  rw [sampleTimes_eq_cons dur r h]; simp

theorem sampleTimes_getD_zero (dur r : ℚ) (h : 0 ≤ dur) : (sampleTimes dur r).getD 0 0 = 0 := by
  rw [sampleTimes_eq_cons dur r h]; rfl

theorem sampleTimes_mem_le (dur r : ℚ) : ∀ x ∈ sampleTimes dur r, x ≤ dur :=
  sampleTimesAux_mem_le dur r _ 0

theorem sampleTimes_chain (dur r : ℚ) (hr : 0 < r) :
    List.Chain' (· < ·) (sampleTimes dur r) :=
  sampleTimesAux_chain dur r hr _ 0

theorem sampleTimes_sorted_getD (dur r : ℚ) (hr : 0 < r) :
    ∀ i j, i < j → j < (sampleTimes dur r).length →
      (sampleTimes dur r).getD i 0 < (sampleTimes dur r).getD j 0 := by
  intro i j hij hj
  have hp : (sampleTimes dur r).Pairwise (· < ·) :=
    List.chain'_iff_pairwise.mp (sampleTimes_chain dur r hr)
  have hi : i < (sampleTimes dur r).length := lt_trans hij hj
  have hg := List.pairwise_iff_get.mp hp ⟨i, hi⟩ ⟨j, hj⟩ hij
  rw [List.getD_eq_getElem?_getD, List.getD_eq_getElem?_getD,
    List.getElem?_eq_getElem hi, List.getElem?_eq_getElem hj]
  simpa using hg

theorem sampleTimes_getD_le (dur r : ℚ) (i : Nat) (h : i < (sampleTimes dur r).length) :
    (sampleTimes dur r).getD i 0 ≤ dur := by
  rw [List.getD_eq_getElem?_getD, List.getElem?_eq_getElem h]
  exact sampleTimes_mem_le dur r _ (List.getElem_mem h)

/-! ### Lemmas about the captured frame list -/

theorem frames_length (ts : List ℚ) (cd : ℚ → List ℚ) (cu : ℚ → String) :
    (ts.map fun t => { data := cd t, time := t, dataUrl := cu t : Frame }).length =
      ts.length := by
  simp

theorem frames_getD_time (ts : List ℚ) (cd : ℚ → List ℚ) (cu : ℚ → String)
    (i : Nat) (h : i < ts.length) :
    (((ts.map fun t => { data := cd t, time := t, dataUrl := cu t : Frame }).getD i
      default).time) = ts.getD i 0 := by
  rw [List.getD_eq_getElem?_getD, List.getElem?_map, List.getD_eq_getElem?_getD,
    List.getElem?_eq_getElem h]
  simp

/-! ### Difference-list lemmas -/

theorem computeDiffs_length (frames : List Frame) :
    (computeDiffs frames).length = frames.length - 1 := by
  simp [computeDiffs]

theorem computeDiffs_getD (frames : List Frame) (j : Nat)
    (h : j < frames.length - 1) :
    (computeDiffs frames).getD j default =
      { timestamp := (frames.getD (j + 1) default).time
        diffScore := avgDiff (frames.getD j default).data (frames.getD (j + 1) default).data
        frameIndex := j + 1 } := by
  rw [computeDiffs, List.getD_eq_getElem?_getD, List.getElem?_map,
    List.getElem?_range (by simpa using h)]
  rfl

theorem countP_le_of_imp {α : Type} (l : List α) (p q : α → Bool)
    (h : ∀ x ∈ l, p x = true → q x = true) : l.countP p ≤ l.countP q := by
  induction l with
  | nil => simp
  | cons a t ih =>
    simp only [List.countP_cons]
    have ht := ih fun x hx => h x (List.mem_cons_of_mem a hx)
    by_cases hp : p a = true
    · rw [if_pos hp, if_pos (h a (List.mem_cons_self a t) hp)]; omega
    · rw [if_neg hp]; split <;> omega

/-! ### Cut-detector invariants -/

theorem detectCutsAux_length (frames : List Frame) (th : ℚ) :
    ∀ (ds : List FrameDiff) (idx : Nat) (scenes : List Scene) (s : Nat),
      (detectCutsAux frames th ds idx scenes s).1.length = scenes.length + cutCount ds th := by
  intro ds
  induction ds with
  | nil => intro idx scenes s; simp [detectCutsAux, cutCount]
  | cons d rest ih =>
    intro idx scenes s
    by_cases hc : th < d.diffScore
    · simp only [detectCutsAux, if_pos hc]
      rw [ih]
      simp [cutCount, List.countP_cons, hc]
      omega
    · simp only [detectCutsAux, if_neg hc]
      rw [ih]
      simp [cutCount, List.countP_cons, hc]

theorem detectCutsAux_start_le (frames : List Frame) (th : ℚ) :
    ∀ (ds : List FrameDiff) (idx : Nat) (scenes : List Scene) (s : Nat),
      s ≤ idx → (detectCutsAux frames th ds idx scenes s).2 ≤ idx + ds.length := by
  intro ds
  induction ds with
  | nil => intro idx scenes s hs; simpa [detectCutsAux] using hs
  | cons d rest ih =>
    intro idx scenes s hs
    by_cases hc : th < d.diffScore
    · simp only [detectCutsAux, if_pos hc, List.length_cons]
      have := ih (idx + 1)
        (scenes ++ [{ id := scenes.length + 1
                      startTime := (frames.getD s default).time
                      endTime := (frames.getD (idx + 1) default).time
                      thumbnailDataUrl :=
                        (frames.getD ((s + (idx + 1)) / 2) default).dataUrl }])
        (idx + 1) (le_refl _)
      omega
    · simp only [detectCutsAux, if_neg hc, List.length_cons]
      have := ih (idx + 1) scenes s (by omega)
      omega

theorem detectCutsAux_chainInv (frames : List Frame) (th : ℚ) :
    ∀ (ds : List FrameDiff) (idx : Nat) (scenes : List Scene) (s : Nat),
      contiguous scenes →
      (scenes = [] → s = 0) →
      (scenes ≠ [] →
        (scenes.headD default).startTime = (frames.getD 0 default).time ∧
        (scenes.getLastD default).endTime = (frames.getD s default).time) →
      contiguous (detectCutsAux frames th ds idx scenes s).1 ∧
      ((detectCutsAux frames th ds idx scenes s).1 = [] →
        (detectCutsAux frames th ds idx scenes s).2 = 0) ∧
      ((detectCutsAux frames th ds idx scenes s).1 ≠ [] →
        ((detectCutsAux frames th ds idx scenes s).1.headD default).startTime =
          (frames.getD 0 default).time ∧
        ((detectCutsAux frames th ds idx scenes s).1.getLastD default).endTime =
          (frames.getD (detectCutsAux frames th ds idx scenes s).2 default).time) := by
  intro ds
  induction ds with
  | nil =>
    intro idx scenes s h1 h2 h3
    exact ⟨h1, h2, h3⟩
  | cons d rest ih =>
    intro idx scenes s h1 h2 h3
    by_cases hc : th < d.diffScore
    · simp only [detectCutsAux, if_pos hc]
      refine ih (idx + 1) _ (idx + 1) ?_ ?_ ?_
      · refine List.Chain'.append h1 (List.chain'_singleton _) ?_
        intro x hx y hy
        simp only [List.head?_cons, Option.mem_def, Option.some.injEq] at hy
        subst hy
        have hne : scenes ≠ [] := by
          intro hn; subst hn; simp at hx
        have h3' := (h3 hne).2
        rw [List.getLastD_eq_getLast?, Option.mem_def.mp hx] at h3'
        simpa using h3'
      · intro hn; simp at hn
      · intro _
        constructor
        · cases scenes with
          | nil =>
            have hs0 : s = 0 := h2 rfl
            subst hs0
            simp
          | cons a l =>
            simpa using (h3 (by simp)).1
        · rw [List.getLastD_eq_getLast?, List.getLast?_concat]
          rfl
    · simp only [detectCutsAux, if_neg hc]
      exact ih (idx + 1) scenes s h1 h2 h3

theorem detectCutsAux_strictInv (frames : List Frame) (th : ℚ)
    (hmono : ∀ i j, i < j → j < frames.length →
      (frames.getD i default).time < (frames.getD j default).time) :
    ∀ (ds : List FrameDiff) (idx : Nat) (scenes : List Scene) (s : Nat),
      s ≤ idx → idx + ds.length + 1 ≤ frames.length →
      (∀ sc ∈ scenes, sc.startTime < sc.endTime) →
      ∀ sc ∈ (detectCutsAux frames th ds idx scenes s).1,
        sc.startTime < sc.endTime := by
  intro ds
  induction ds with
  | nil =>
    intro idx scenes s _ _ hsc
    simpa [detectCutsAux] using hsc
  | cons d rest ih =>
    intro idx scenes s hs hlen hsc
    by_cases hc : th < d.diffScore
    · simp only [detectCutsAux, if_pos hc]
      refine ih (idx + 1) _ (idx + 1) (le_refl _) ?_ ?_
      · simp only [List.length_cons] at hlen; omega
      · intro sc hmem
        rcases List.mem_append.mp hmem with hm | hm
        · exact hsc sc hm
        · have hsceq : sc = { id := scenes.length + 1
                              startTime := (frames.getD s default).time
                              endTime := (frames.getD (idx + 1) default).time
                              thumbnailDataUrl :=
                                (frames.getD ((s + (idx + 1)) / 2) default).dataUrl } := by
            simpa using hm
          subst hsceq
          have hidx : idx + 1 < frames.length := by
            simp only [List.length_cons] at hlen; omega
          exact hmono s (idx + 1) (by omega) hidx
    · simp only [detectCutsAux, if_neg hc]
      refine ih (idx + 1) scenes s (by omega) ?_ hsc
      simp only [List.length_cons] at hlen; omega

/-! ### Driver-level lemmas for the adaptive strategy -/

theorem detectCutsAux_final_lt (frames : List Frame) (th : ℚ) (hne : frames ≠ []) :
    (detectCutsAux frames th (computeDiffs frames) 0 [] 0).2 < frames.length := by
  have hb := detectCutsAux_start_le frames th (computeDiffs frames) 0 [] 0 (le_refl 0)
  rw [computeDiffs_length] at hb
  have hpos : 0 < frames.length := List.length_pos.mpr hne
  omega

theorem detectScenes_eq_append (frames : List Frame) (duration th : ℚ)
    (hne : frames ≠ []) :
    detectScenes frames duration th (computeDiffs frames) =
      (detectCutsAux frames th (computeDiffs frames) 0 [] 0).1 ++
        [finalScene frames duration
          (detectCutsAux frames th (computeDiffs frames) 0 [] 0)] := by
  rw [detectScenes,
    if_pos ⟨List.length_pos.mpr hne, detectCutsAux_final_lt frames th hne⟩]

theorem detectScenes_partition (frames : List Frame) (duration th : ℚ)
    (hne : frames ≠ []) :
    detectScenes frames duration th (computeDiffs frames) ≠ [] ∧
    ((detectScenes frames duration th (computeDiffs frames)).headD default).startTime =
      (frames.getD 0 default).time ∧
    ((detectScenes frames duration th (computeDiffs frames)).getLastD default).endTime =
      duration ∧
    contiguous (detectScenes frames duration th (computeDiffs frames)) := by
  have hinv := detectCutsAux_chainInv frames th (computeDiffs frames) 0 [] 0
    List.chain'_nil (fun _ => rfl) (fun h => absurd rfl h)
  rw [detectScenes_eq_append frames duration th hne]
  obtain ⟨hch, hemp, hlast⟩ := hinv
  refine ⟨by simp, ?_, ?_, ?_⟩
  · cases hcase : (detectCutsAux frames th (computeDiffs frames) 0 [] 0).1 with
    | nil =>
      have hz := hemp hcase
      simp only [hcase, List.nil_append, List.headD_cons]
      rw [finalScene, hz]
    | cons a l =>
      have hh := (hlast (by rw [hcase]; simp)).1
      rw [hcase] at hh
      simpa [hcase] using hh
  · rw [List.getLastD_eq_getLast?, List.getLast?_concat]
    rfl
  · refine List.Chain'.append hch (List.chain'_singleton _) ?_
    intro x hx y hy
    simp only [List.head?_cons, Option.mem_def, Option.some.injEq] at hy
    subst hy
    have hne' : (detectCutsAux frames th (computeDiffs frames) 0 [] 0).1 ≠ [] := by
      intro hn; rw [hn] at hx; simp at hx
    have hl := (hlast hne').2
    rw [List.getLastD_eq_getLast?, Option.mem_def.mp hx] at hl
    simpa [finalScene] using hl

theorem detectScenes_length_eq (frames : List Frame) (duration th : ℚ)
    (hne : frames ≠ []) :
    (detectScenes frames duration th (computeDiffs frames)).length =
      cutCount (computeDiffs frames) th + 1 := by
  rw [detectScenes_eq_append frames duration th hne]
  simp [detectCutsAux_length frames th (computeDiffs frames) 0 [] 0]

theorem detectScenes_spans (frames : List Frame) (duration th : ℚ)
    (hne : frames ≠ [])
    (hmono : ∀ i j, i < j → j < frames.length →
      (frames.getD i default).time < (frames.getD j default).time)
    (hle : ∀ i, i < frames.length → (frames.getD i default).time ≤ duration) :
    (∀ sc ∈ detectScenes frames duration th (computeDiffs frames),
       sc.startTime ≤ sc.endTime) ∧
    (∀ i, i + 1 < (detectScenes frames duration th (computeDiffs frames)).length →
       ((detectScenes frames duration th (computeDiffs frames)).getD i default).startTime <
       ((detectScenes frames duration th (computeDiffs frames)).getD i default).endTime) := by
  have hfin : (finalScene frames duration
      (detectCutsAux frames th (computeDiffs frames) 0 [] 0)).startTime ≤
      (finalScene frames duration
      (detectCutsAux frames th (computeDiffs frames) 0 [] 0)).endTime :=
    hle _ (detectCutsAux_final_lt frames th hne)
  have hstrict : ∀ sc ∈ (detectCutsAux frames th (computeDiffs frames) 0 [] 0).1,
      sc.startTime < sc.endTime := by
    refine detectCutsAux_strictInv frames th hmono (computeDiffs frames) 0 [] 0
      (le_refl 0) ?_ (by simp)
    rw [computeDiffs_length]
    have hpos : 0 < frames.length := List.length_pos.mpr hne
    omega
  rw [detectScenes_eq_append frames duration th hne]
  constructor
  · intro sc hmem
    rcases List.mem_append.mp hmem with hm | hm
    · exact le_of_lt (hstrict sc hm)
    · have : sc = finalScene frames duration
          (detectCutsAux frames th (computeDiffs frames) 0 [] 0) := by simpa using hm
      rw [this]
      exact hfin
  · intro i hi
    simp only [List.length_append, List.length_cons, List.length_nil] at hi
    have hilt : i < (detectCutsAux frames th (computeDiffs frames) 0 [] 0).1.length := by
      omega
    rw [List.getD_eq_getElem?_getD, List.getElem?_append_left hilt,
      ← List.getD_eq_getElem?_getD]
    refine hstrict _ ?_
    rw [List.getD_eq_getElem?_getD, List.getElem?_eq_getElem hilt]
    exact List.getElem_mem hilt

/-! ### Generic list positioning helpers -/

theorem headD_eq_getD_zero {α : Type} (l : List α) (a : α) : l.headD a = l.getD 0 a := by
  cases l <;> rfl

theorem getLastD_eq_getD {α : Type} (l : List α) (a : α) :
    l.getLastD a = l.getD (l.length - 1) a := by
  rw [List.getLastD_eq_getLast?, List.getLast?_eq_getElem?, List.getD_eq_getElem?_getD]

/-! ### Captured-frame-list lemmas -/

theorem capturedFrames_length (d r : ℚ) (cd : ℚ → List ℚ) (cu : ℚ → String) :
    (capturedFrames d r cd cu).length = (sampleTimes d r).length := by
  simp [capturedFrames]

theorem capturedFrames_ne_nil (d r : ℚ) (cd : ℚ → List ℚ) (cu : ℚ → String)
    (hd : 0 ≤ d) : capturedFrames d r cd cu ≠ [] := by
  rw [capturedFrames, sampleTimes_eq_cons d r hd]
  simp

theorem capturedFrames_time (d r : ℚ) (cd : ℚ → List ℚ) (cu : ℚ → String)
    (i : Nat) (h : i < (sampleTimes d r).length) :
    ((capturedFrames d r cd cu).getD i default).time = (sampleTimes d r).getD i 0 :=
  frames_getD_time (sampleTimes d r) cd cu i h

theorem capturedFrames_time_zero (d r : ℚ) (cd : ℚ → List ℚ) (cu : ℚ → String)
    (hd : 0 ≤ d) : ((capturedFrames d r cd cu).getD 0 default).time = 0 := by
  have hlen : 0 < (sampleTimes d r).length := by
    rw [sampleTimes_eq_cons d r hd]; simp
  rw [capturedFrames_time d r cd cu 0 hlen]
  exact sampleTimes_getD_zero d r hd

theorem capturedFrames_mono (d r : ℚ) (cd : ℚ → List ℚ) (cu : ℚ → String)
    (hr : 0 < r) :
    ∀ i j, i < j → j < (capturedFrames d r cd cu).length →
      ((capturedFrames d r cd cu).getD i default).time <
      ((capturedFrames d r cd cu).getD j default).time := by
  intro i j hij hj
  rw [capturedFrames_length] at hj
  rw [capturedFrames_time d r cd cu i (lt_trans hij hj),
    capturedFrames_time d r cd cu j hj]
  exact sampleTimes_sorted_getD d r hr i j hij hj

theorem capturedFrames_time_le (d r : ℚ) (cd : ℚ → List ℚ) (cu : ℚ → String) :
    ∀ i, i < (capturedFrames d r cd cu).length →
      ((capturedFrames d r cd cu).getD i default).time ≤ d := by
  intro i hi
  rw [capturedFrames_length] at hi
  rw [capturedFrames_time d r cd cu i hi]
  exact sampleTimes_getD_le d r i hi

/-! ### Fixed-interval lemmas -/

theorem processFixed_length (d fsd : ℚ) (cu : ℚ → String) :
    (processFixed d fsd cu).1.length = totalSegments d fsd := by
  simp [processFixed]

theorem processFixed_getD (d fsd : ℚ) (cu : ℚ → String) (i : Nat)
    (hi : i < totalSegments d fsd) :
    (processFixed d fsd cu).1.getD i default =
      { id := i + 1
        startTime := (i : ℚ) * fsd
        endTime := min ((i : ℚ) * fsd + fsd) d
        thumbnailDataUrl := cu (fixedSeekTime d fsd i) } := by
  simp only [processFixed]
  rw [List.getD_eq_getElem?_getD, List.getElem?_map,
    List.getElem?_range (by simpa using hi)]
  rfl

theorem totalSegments_pos (d fsd : ℚ) (hd : 0 < d) (hf : 0 < fsd) :
    0 < totalSegments d fsd := by
  have h1 : (0 : ℤ) < ⌈d / fsd⌉ := Int.ceil_pos.mpr (div_pos hd hf)
  simp only [totalSegments]
  omega

theorem mul_lt_of_lt_totalSegments (d fsd : ℚ) (hf : 0 < fsd) (i : Nat)
    (hi : i < totalSegments d fsd) : (i : ℚ) * fsd < d := by
  have h2 : ((i : ℤ)) < ⌈d / fsd⌉ := by
    simp only [totalSegments] at hi
    omega
  have h3 : ((i : ℚ)) + 1 ≤ (⌈d / fsd⌉ : ℚ) := by exact_mod_cast Int.add_one_le_iff.mpr h2
  have h4 : (⌈d / fsd⌉ : ℚ) < d / fsd + 1 := Int.ceil_lt_add_one _
  have h5 : (i : ℚ) < d / fsd := by linarith
  exact (lt_div_iff₀ hf).mp h5

theorem le_totalSegments_mul (d fsd : ℚ) (hd : 0 < d) (hf : 0 < fsd) :
    d ≤ (totalSegments d fsd : ℚ) * fsd := by
  have h1 : (0 : ℤ) < ⌈d / fsd⌉ := Int.ceil_pos.mpr (div_pos hd hf)
  have h2 : ((totalSegments d fsd : ℤ)) = ⌈d / fsd⌉ := by
    simp only [totalSegments]
    omega
  have h3 : d / fsd ≤ (⌈d / fsd⌉ : ℚ) := Int.le_ceil _
  have h4 : ((totalSegments d fsd : ℚ)) = (⌈d / fsd⌉ : ℚ) := by exact_mod_cast h2
  rw [h4]
  exact (div_le_iff₀ hf).mp h3

theorem processFixed_last_endTime (d fsd : ℚ) (cu : ℚ → String)
    (hd : 0 < d) (hf : 0 < fsd) :
    ((processFixed d fsd cu).1.getLastD default).endTime = d := by
  have hpos := totalSegments_pos d fsd hd hf
  rw [getLastD_eq_getD, processFixed_length,
    processFixed_getD d fsd cu (totalSegments d fsd - 1) (by omega)]
  simp only
  have hcast : ((totalSegments d fsd - 1 : Nat) : ℚ) = (totalSegments d fsd : ℚ) - 1 := by
    have : (1 : Nat) ≤ totalSegments d fsd := hpos
    push_cast [Nat.cast_sub this]
    ring
  rw [hcast]
  have hge : d ≤ ((totalSegments d fsd : ℚ) - 1) * fsd + fsd := by
    have := le_totalSegments_mul d fsd hd hf
    nlinarith
  exact min_eq_right hge

theorem processFixed_partition (d fsd : ℚ) (cu : ℚ → String)
    (hd : 0 < d) (hf : 0 < fsd) :
    (processFixed d fsd cu).1 ≠ [] ∧
    ((processFixed d fsd cu).1.headD default).startTime = 0 ∧
    ((processFixed d fsd cu).1.getLastD default).endTime = d ∧
    contiguous (processFixed d fsd cu).1 := by
  have hpos := totalSegments_pos d fsd hd hf
  refine ⟨?_, ?_, processFixed_last_endTime d fsd cu hd hf, ?_⟩
  · intro h
    have := processFixed_length d fsd cu
    rw [h] at this
    simp at this
    omega
  · rw [headD_eq_getD_zero, processFixed_getD d fsd cu 0 hpos]
    simp
  · rw [contiguous, List.chain'_iff_get]
    intro i hilen
    rw [processFixed_length] at hilen
    have hi : i < totalSegments d fsd := by omega
    have hi1 : i + 1 < totalSegments d fsd := by omega
    have hg1 : ((processFixed d fsd cu).1.get
        ⟨i, by rw [processFixed_length]; omega⟩) =
        (processFixed d fsd cu).1.getD i default := by
      rw [List.getD_eq_getElem?_getD,
        List.getElem?_eq_getElem (by rw [processFixed_length]; omega)]
      simp
    have hg2 : ((processFixed d fsd cu).1.get
        ⟨i + 1, by rw [processFixed_length]; omega⟩) =
        (processFixed d fsd cu).1.getD (i + 1) default := by
      rw [List.getD_eq_getElem?_getD,
        List.getElem?_eq_getElem (by rw [processFixed_length]; omega)]
      simp
    rw [hg1, hg2, processFixed_getD d fsd cu i hi, processFixed_getD d fsd cu (i + 1) hi1]
    simp only
    have hle : ((i : ℚ)) * fsd + fsd ≤ d := le_of_lt (by
      have := mul_lt_of_lt_totalSegments d fsd hf (i + 1) hi1
      push_cast at this
      linarith)
    rw [min_eq_left hle]
    push_cast
    ring

/-! ### Seek-time lemmas for the fixed strategy -/

theorem fixedSeekTime_lt_end (d fsd : ℚ) (hf : 0 < fsd) (i : Nat)
    (hi : i < totalSegments d fsd) :
    fixedSeekTime d fsd i < min ((i : ℚ) * fsd + fsd) d := by
  have hstart : (i : ℚ) * fsd < min ((i : ℚ) * fsd + fsd) d :=
    lt_min (by linarith) (mul_lt_of_lt_totalSegments d fsd hf i hi)
  have hmid : (i : ℚ) * fsd + (min ((i : ℚ) * fsd + fsd) d - (i : ℚ) * fsd) / 2 <
      min ((i : ℚ) * fsd + fsd) d := by
    linarith
  calc fixedSeekTime d fsd i
      ≤ (i : ℚ) * fsd + (min ((i : ℚ) * fsd + fsd) d - (i : ℚ) * fsd) / 2 :=
        min_le_left _ _
    _ < min ((i : ℚ) * fsd + fsd) d := hmid

theorem start_lt_fixedSeekTime (d fsd : ℚ) (hf : 0 < fsd) (i : Nat)
    (hi : i < totalSegments d fsd) (hclamp : (i : ℚ) * fsd < d - 1/10) :
    (i : ℚ) * fsd < fixedSeekTime d fsd i := by
  have hstart : (i : ℚ) * fsd < min ((i : ℚ) * fsd + fsd) d :=
    lt_min (by linarith) (mul_lt_of_lt_totalSegments d fsd hf i hi)
  exact lt_min (by linarith) hclamp

/-! ### Difference-scorer lemmas -/

theorem diffSumAux_flatten (ps1 ps2 : List Pixel) :
    diffSumAux (flattenRGBA ps1) (flattenRGBA ps2) =
      ((ps1.zip ps2).map fun q => |luminance q.1 - luminance q.2|).sum := by
  induction ps1 generalizing ps2 with
  | nil => cases ps2 <;> simp [flattenRGBA, diffSumAux]
  | cons p t ih =>
    cases ps2 with
    | nil =>
      obtain ⟨r, g, b, a⟩ := p
      simp [flattenRGBA, diffSumAux]
    | cons q t2 =>
      obtain ⟨r, g, b, a⟩ := p
      obtain ⟨r2, g2, b2, a2⟩ := q
      simp [flattenRGBA, diffSumAux, ih, luminance]

theorem flattenRGBA_length (ps : List Pixel) :
    (flattenRGBA ps).length = 4 * ps.length := by
  induction ps with
  | nil => simp [flattenRGBA]
  | cons p t ih =>
    obtain ⟨r, g, b, a⟩ := p
    simp [flattenRGBA, ih]
    ring

theorem avgDiff_flatten (ps1 ps2 : List Pixel) :
    avgDiff (flattenRGBA ps1) (flattenRGBA ps2) = specMeanLumaDiff ps1 ps2 := by
  rw [avgDiff, diffSumAux_flatten, flattenRGBA_length, specMeanLumaDiff]
  congr 1
  push_cast
  ring

theorem specMeanLumaDiff_nonneg (ps1 ps2 : List Pixel) :
    0 ≤ specMeanLumaDiff ps1 ps2 := by
  rw [specMeanLumaDiff]
  apply div_nonneg
  · apply List.sum_nonneg
    intro x hx
    obtain ⟨q, _, rfl⟩ := List.mem_map.mp hx
    exact abs_nonneg _
  · positivity

theorem luminance_bounds (p : Pixel) (h : pixelInRange p) :
    0 ≤ luminance p ∧ luminance p ≤ 255 := by
  obtain ⟨⟨h1, h2⟩, ⟨h3, h4⟩, ⟨h5, h6⟩, _⟩ := h
  rw [luminance]
  constructor <;> nlinarith

theorem specMeanLumaDiff_le (ps1 ps2 : List Pixel)
    (hlen : ps1.length = ps2.length) (hne : 0 < ps1.length)
    (h1 : ∀ p ∈ ps1, pixelInRange p) (h2 : ∀ p ∈ ps2, pixelInRange p) :
    specMeanLumaDiff ps1 ps2 ≤ 255 := by
  have hzip : (ps1.zip ps2).length = ps1.length := by
    rw [List.length_zip, hlen, min_self]
  have hsum : (((ps1.zip ps2).map fun q => |luminance q.1 - luminance q.2|).sum) ≤
      255 * (ps1.length : ℚ) := by
    have hbd : ∀ x ∈ (ps1.zip ps2).map fun q => |luminance q.1 - luminance q.2|,
        x ≤ (255 : ℚ) := by
      intro x hx
      obtain ⟨q, hq, rfl⟩ := List.mem_map.mp hx
      have hq1 := h1 q.1 (List.of_mem_zip hq).1
      have hq2 := h2 q.2 (List.of_mem_zip hq).2
      obtain ⟨ha1, ha2⟩ := luminance_bounds q.1 hq1
      obtain ⟨hb1, hb2⟩ := luminance_bounds q.2 hq2
      rw [abs_le]
      constructor <;> linarith
    calc (((ps1.zip ps2).map fun q => |luminance q.1 - luminance q.2|).sum)
        ≤ ((ps1.zip ps2).map fun q => |luminance q.1 - luminance q.2|).length • (255 : ℚ) :=
          List.sum_le_card_nsmul _ _ hbd
      _ = 255 * (ps1.length : ℚ) := by
          rw [List.length_map, hzip]
          simp [nsmul_eq_mul]
          ring
  rw [specMeanLumaDiff]
  rw [div_le_iff₀ (by exact_mod_cast hne)]
  linarith

/-! ### Claim theorems -/

/-- C1: for every valid configuration and every successful run, the
returned scene list partitions `[0, duration]` exactly — the first scene
starts at `0`, the last scene ends at `duration`, and every scene ends
where the next one starts — under both the content-adaptive and the
fixed-interval strategy. -/
theorem C1_scene_list_partitions (d r th fsd : ℚ) (cd : ℚ → List ℚ) (cu : ℚ → String)
    (hd : 0 < d) (hr : 0 < r) (hfsd : 0 < fsd) :
    ((processAdaptive d r th cd cu).1 ≠ [] ∧
     ((processAdaptive d r th cd cu).1.headD default).startTime = 0 ∧
     ((processAdaptive d r th cd cu).1.getLastD default).endTime = d ∧
     contiguous (processAdaptive d r th cd cu).1) ∧
    ((processFixed d fsd cu).1 ≠ [] ∧
     ((processFixed d fsd cu).1.headD default).startTime = 0 ∧
     ((processFixed d fsd cu).1.getLastD default).endTime = d ∧
     contiguous (processFixed d fsd cu).1) := by
  constructor
  · have hne := capturedFrames_ne_nil d r cd cu (le_of_lt hd)
    have hp := detectScenes_partition (capturedFrames d r cd cu) d th hne
    have ht0 := capturedFrames_time_zero d r cd cu (le_of_lt hd)
    simp only [processAdaptive]
    exact ⟨hp.1, by rw [hp.2.1, ht0], hp.2.2.1, hp.2.2.2⟩
  · exact processFixed_partition d fsd cu hd hfsd

theorem C1_scene_list_partitions_witness :
    (0 : ℚ) < 2 ∧ (0 : ℚ) < 1 ∧
    (((processAdaptive 2 1 18 (fun _ => []) (fun _ => "")).1 ≠ [] ∧
      ((processAdaptive 2 1 18 (fun _ => []) (fun _ => "")).1.headD default).startTime = 0 ∧
      ((processAdaptive 2 1 18 (fun _ => []) (fun _ => "")).1.getLastD default).endTime = 2 ∧
      contiguous (processAdaptive 2 1 18 (fun _ => []) (fun _ => "")).1) ∧
     ((processFixed 2 1 (fun _ => "")).1 ≠ [] ∧
      ((processFixed 2 1 (fun _ => "")).1.headD default).startTime = 0 ∧
      ((processFixed 2 1 (fun _ => "")).1.getLastD default).endTime = 2 ∧
      contiguous (processFixed 2 1 (fun _ => "")).1)) :=
  ⟨by norm_num, by norm_num,
   C1_scene_list_partitions 2 1 18 1 (fun _ => []) (fun _ => "")
     (by norm_num) (by norm_num) (by norm_num)⟩

/-- C2 counterexample: with `duration = 1`, `sampleRate = 1` and a total
frame change at `t = 1`, the cut at the last sampled frame (whose time
equals the duration) makes the trailing scene degenerate: it has
`startTime = endTime = 1`, refuting the claim that every produced `Scene`
satisfies `startTime < endTime` strictly. -/
theorem C2_counterexample :
    ¬ (∀ sc ∈ (processAdaptive 1 1 18
        (fun t => if t = 0 then [0, 0, 0, 0] else [255, 255, 255, 255])
        (fun _ => "")).1, sc.startTime < sc.endTime) := by
  intro h
  have h2 := h { id := 2, startTime := 1, endTime := 1, thumbnailDataUrl := "" }
    (by norm_num [processAdaptive, capturedFrames, sampleTimes, sampleTimesAux,
      computeDiffs, avgDiff, diffSumAux, detectScenes, detectCutsAux, finalScene,
      List.range_succ])
  exact absurd h2 (by norm_num)

/-- C2 amended: every `Scene` produced by either strategy satisfies
`startTime ≤ endTime`; the inequality is strict for every fixed-interval
scene and for every adaptive scene except possibly the trailing one
(which degenerates exactly when a cut lands on a final sampled frame whose
timestamp equals the duration). -/
theorem C2_amended_scene_spans (d r th fsd : ℚ) (cd : ℚ → List ℚ) (cu : ℚ → String)
    (hd : 0 < d) (hr : 0 < r) (hfsd : 0 < fsd) :
    (∀ sc ∈ (processAdaptive d r th cd cu).1, sc.startTime ≤ sc.endTime) ∧
    (∀ i, i + 1 < (processAdaptive d r th cd cu).1.length →
      ((processAdaptive d r th cd cu).1.getD i default).startTime <
      ((processAdaptive d r th cd cu).1.getD i default).endTime) ∧
    (∀ sc ∈ (processFixed d fsd cu).1, sc.startTime < sc.endTime) := by
  have hne := capturedFrames_ne_nil d r cd cu (le_of_lt hd)
  have hsp := detectScenes_spans (capturedFrames d r cd cu) d th hne
    (capturedFrames_mono d r cd cu hr) (capturedFrames_time_le d r cd cu)
  refine ⟨?_, ?_, ?_⟩
  · simpa only [processAdaptive] using hsp.1
  · simpa only [processAdaptive] using hsp.2
  · intro sc hmem
    simp only [processFixed, List.mem_map, List.mem_range] at hmem
    obtain ⟨i, hi, rfl⟩ := hmem
    show (i : ℚ) * fsd < min ((i : ℚ) * fsd + fsd) d
    exact lt_min (by linarith) (mul_lt_of_lt_totalSegments d fsd hfsd i hi)

theorem C2_amended_scene_spans_witness :
    (0 : ℚ) < 2 ∧ (0 : ℚ) < 1 ∧
    ((∀ sc ∈ (processAdaptive 2 1 18 (fun _ => []) (fun _ => "")).1,
        sc.startTime ≤ sc.endTime) ∧
     (∀ i, i + 1 < (processAdaptive 2 1 18 (fun _ => []) (fun _ => "")).1.length →
        ((processAdaptive 2 1 18 (fun _ => []) (fun _ => "")).1.getD i default).startTime <
        ((processAdaptive 2 1 18 (fun _ => []) (fun _ => "")).1.getD i default).endTime) ∧
     (∀ sc ∈ (processFixed 2 1 (fun _ => "")).1, sc.startTime < sc.endTime)) :=
  ⟨by norm_num, by norm_num,
   C2_amended_scene_spans 2 1 18 1 (fun _ => []) (fun _ => "")
     (by norm_num) (by norm_num) (by norm_num)⟩

/-- C3 counterexample: with 5 frames at `t = 0..4`, diff scores
`[0, 50, 0, 0]` at positions `0..3`, and threshold `18`, the code places
the boundary at the *later* frame of the flagged pair (`frames[idx+1]`,
here `t = 2`), producing scenes `[0,2]` and `[2,4]` — not `[0,1]` and
`[1,4]` as claimed. -/
theorem C3_counterexample :
    ((processAdaptive 4 1 18 (fun t => if t < 2 then [0, 0, 0, 255] else [50, 50, 50, 255])
        (fun _ => "")).1.map fun sc => (sc.startTime, sc.endTime)) = [(0, 2), (2, 4)] ∧
    ¬ (((processAdaptive 4 1 18 (fun t => if t < 2 then [0, 0, 0, 255] else [50, 50, 50, 255])
        (fun _ => "")).1.map fun sc => (sc.startTime, sc.endTime)) = [(0, 1), (1, 4)]) := by
  constructor
  · norm_num [processAdaptive, capturedFrames, sampleTimes, sampleTimesAux, computeDiffs,
      avgDiff, diffSumAux, detectScenes, detectCutsAux, finalScene, List.range_succ]
  · norm_num [processAdaptive, capturedFrames, sampleTimes, sampleTimesAux, computeDiffs,
      avgDiff, diffSumAux, detectScenes, detectCutsAux, finalScene, List.range_succ]

/-- C3 amended: in Scenario B (duration 4 s, interval 1 s, 5 frames at
`t = 0..4`, consecutive diff scores `[0, 50, 0, 0]`, threshold 18) the
adaptive strategy emits the cut at the later frame of the flagged pair —
frame index 2, `t = 2` — and produces exactly two scenes, `[0,2]` and
`[2,4]`. -/
theorem C3_amended_scenario_B :
    ((processAdaptive 4 1 18 (fun t => if t < 2 then [0, 0, 0, 255] else [50, 50, 50, 255])
        (fun _ => "")).1.map fun sc => (sc.startTime, sc.endTime)) = [(0, 2), (2, 4)] ∧
    (((processAdaptive 4 1 18 (fun t => if t < 2 then [0, 0, 0, 255] else [50, 50, 50, 255])
        (fun _ => "")).2.map fun df => df.diffScore) = [0, 50, 0, 0]) := by
  constructor
  · norm_num [processAdaptive, capturedFrames, sampleTimes, sampleTimesAux, computeDiffs,
      avgDiff, diffSumAux, detectScenes, detectCutsAux, finalScene, List.range_succ]
  · norm_num [processAdaptive, capturedFrames, sampleTimes, sampleTimesAux, computeDiffs,
      avgDiff, diffSumAux, detectScenes, detectCutsAux, finalScene, List.range_succ]

/-- C4: for equally sized non-empty RGBA buffers the difference score
equals the arithmetic mean over all pixels of the absolute delta of
`Y = 0.299R + 0.587G + 0.114B` (alpha ignored), and is therefore a
non-negative (deterministic) function of the two buffers. -/
theorem C4_score_is_mean_abs_luminance (ps1 ps2 : List Pixel)
    (hlen : ps1.length = ps2.length) (hne : 0 < ps1.length) :
    avgDiff (flattenRGBA ps1) (flattenRGBA ps2) = specMeanLumaDiff ps1 ps2 ∧
    0 ≤ avgDiff (flattenRGBA ps1) (flattenRGBA ps2) := by
  refine ⟨avgDiff_flatten ps1 ps2, ?_⟩
  rw [avgDiff_flatten]
  exact specMeanLumaDiff_nonneg ps1 ps2

theorem get_eq_getD {α : Type} [Inhabited α] (l : List α) (i : Nat) (h : i < l.length) :
    l.get ⟨i, h⟩ = l.getD i default := by
  rw [List.getD_eq_getElem?_getD, List.getElem?_eq_getElem h]
  simp

theorem getD_mem {α : Type} (l : List α) (a : α) (i : Nat) (h : i < l.length) :
    l.getD i a ∈ l := by
  rw [List.getD_eq_getElem?_getD, List.getElem?_eq_getElem h]
  exact List.getElem_mem h

/-- C5: for every fixed sampled-frame sequence, raising the threshold
never increases the number of detected cuts, and hence never increases the
number of scenes. -/
theorem C5_threshold_monotonicity (frames : List Frame) (duration t1 t2 : ℚ)
    (h : t1 ≤ t2) :
    cutCount (computeDiffs frames) t2 ≤ cutCount (computeDiffs frames) t1 ∧
    (detectScenes frames duration t2 (computeDiffs frames)).length ≤
      (detectScenes frames duration t1 (computeDiffs frames)).length := by
  have hcut : cutCount (computeDiffs frames) t2 ≤ cutCount (computeDiffs frames) t1 := by
    apply countP_le_of_imp
    intro x _ hx
    simp only [decide_eq_true_eq] at hx ⊢
    linarith
  refine ⟨hcut, ?_⟩
  by_cases hne : frames = []
  · subst hne
    simp [detectScenes, detectCutsAux, computeDiffs]
  · rw [detectScenes_length_eq frames duration t2 hne,
      detectScenes_length_eq frames duration t1 hne]
    omega

theorem C5_threshold_monotonicity_witness :
    (18 : ℚ) ≤ 300 ∧
    (cutCount (computeDiffs [{ data := [0, 0, 0, 0], time := 0, dataUrl := "" },
        { data := [255, 255, 255, 255], time := 1, dataUrl := "" }]) 300 ≤
      cutCount (computeDiffs [{ data := [0, 0, 0, 0], time := 0, dataUrl := "" },
        { data := [255, 255, 255, 255], time := 1, dataUrl := "" }]) 18 ∧
     (detectScenes [{ data := [0, 0, 0, 0], time := 0, dataUrl := "" },
        { data := [255, 255, 255, 255], time := 1, dataUrl := "" }] 1 300
        (computeDiffs [{ data := [0, 0, 0, 0], time := 0, dataUrl := "" },
          { data := [255, 255, 255, 255], time := 1, dataUrl := "" }])).length ≤
     (detectScenes [{ data := [0, 0, 0, 0], time := 0, dataUrl := "" },
        { data := [255, 255, 255, 255], time := 1, dataUrl := "" }] 1 18
        (computeDiffs [{ data := [0, 0, 0, 0], time := 0, dataUrl := "" },
          { data := [255, 255, 255, 255], time := 1, dataUrl := "" }])).length) :=
  ⟨by norm_num,
   C5_threshold_monotonicity [{ data := [0, 0, 0, 0], time := 0, dataUrl := "" },
     { data := [255, 255, 255, 255], time := 1, dataUrl := "" }] 1 18 300 (by norm_num)⟩

/-- C6: for every `duration > 0` and `fixedSegmentSeconds > 0`, the fixed
strategy produces exactly `ceil(duration / fixedSegmentSeconds)` scenes,
segment `i` spans `[i·fsd, min((i+1)·fsd, duration)]`, and the last
scene's end time equals the duration exactly. -/
theorem C6_fixed_interval_shape (d fsd : ℚ) (cu : ℚ → String)
    (hd : 0 < d) (hf : 0 < fsd) :
    (processFixed d fsd cu).1.length = totalSegments d fsd ∧
    (totalSegments d fsd : ℤ) = ⌈d / fsd⌉ ∧
    (∀ i, i < totalSegments d fsd →
      ((processFixed d fsd cu).1.getD i default).startTime = (i : ℚ) * fsd ∧
      ((processFixed d fsd cu).1.getD i default).endTime = min (((i : ℚ) + 1) * fsd) d) ∧
    ((processFixed d fsd cu).1.getLastD default).endTime = d := by
  refine ⟨processFixed_length d fsd cu, ?_, ?_, processFixed_last_endTime d fsd cu hd hf⟩
  · have h1 : (0 : ℤ) < ⌈d / fsd⌉ := Int.ceil_pos.mpr (div_pos hd hf)
    simp only [totalSegments]
    omega
  · intro i hi
    rw [processFixed_getD d fsd cu i hi]
    refine ⟨rfl, ?_⟩
    show min ((i : ℚ) * fsd + fsd) d = min (((i : ℚ) + 1) * fsd) d
    congr 1
    ring

theorem C6_fixed_interval_shape_witness :
    (0 : ℚ) < 7 ∧ (0 : ℚ) < 3 ∧
    ((processFixed 7 3 (fun _ => "")).1.length = totalSegments 7 3 ∧
     (totalSegments 7 3 : ℤ) = ⌈(7 : ℚ) / 3⌉ ∧
     (∀ i, i < totalSegments 7 3 →
       ((processFixed 7 3 (fun _ => "")).1.getD i default).startTime = (i : ℚ) * 3 ∧
       ((processFixed 7 3 (fun _ => "")).1.getD i default).endTime =
         min (((i : ℚ) + 1) * 3) 7) ∧
     ((processFixed 7 3 (fun _ => "")).1.getLastD default).endTime = 7) :=
  ⟨by norm_num, by norm_num,
   C6_fixed_interval_shape 7 3 (fun _ => "") (by norm_num) (by norm_num)⟩

/-- C7 counterexample: with `duration = 1/20` and `fixedSegmentSeconds = 1`
the only segment spans `[0, 1/20]`, but the clamp
`min(midpoint, duration − 0.1)` drives the seeked timestamp to `−1/20`,
which is *not* strictly inside the segment — refuting the claim that the
seeked thumbnail timestamp always lies strictly inside the segment's span. -/
theorem C7_counterexample :
    ((processFixed (1/20) 1 (fun _ => "")).1.getD 0 default).startTime = 0 ∧
    ((processFixed (1/20) 1 (fun _ => "")).1.getD 0 default).endTime = 1/20 ∧
    fixedSeekTime (1/20) 1 0 = -(1/20) ∧
    ¬ (((processFixed (1/20) 1 (fun _ => "")).1.getD 0 default).startTime <
         fixedSeekTime (1/20) 1 0 ∧
       fixedSeekTime (1/20) 1 0 <
         ((processFixed (1/20) 1 (fun _ => "")).1.getD 0 default).endTime) := by
  norm_num [processFixed, totalSegments, fixedSeekTime, List.range_succ]

/-- C7 amended: the seeked timestamp always lies strictly below the
segment's end, and it lies strictly inside the segment's span whenever the
segment starts more than `0.1` seconds before the end of the video (for
segments starting within `0.1` s of the video end, the end-of-stream clamp
can push the seek to or before the segment start). -/
theorem C7_amended_seek_in_segment (d fsd : ℚ) (cu : ℚ → String)
    (hd : 0 < d) (hf : 0 < fsd) (i : Nat) (hi : i < totalSegments d fsd) :
    fixedSeekTime d fsd i < ((processFixed d fsd cu).1.getD i default).endTime ∧
    (((processFixed d fsd cu).1.getD i default).startTime < d - 1/10 →
      ((processFixed d fsd cu).1.getD i default).startTime < fixedSeekTime d fsd i) := by
  rw [processFixed_getD d fsd cu i hi]
  exact ⟨fixedSeekTime_lt_end d fsd hf i hi,
    fun h => start_lt_fixedSeekTime d fsd hf i hi h⟩

theorem C7_amended_seek_in_segment_witness :
    (0 : ℚ) < 1 ∧ (0 : ℚ) < 1 ∧ 0 < totalSegments 1 1 ∧
    (fixedSeekTime 1 1 0 < ((processFixed 1 1 (fun _ => "")).1.getD 0 default).endTime ∧
     (((processFixed 1 1 (fun _ => "")).1.getD 0 default).startTime < 1 - 1/10 →
       ((processFixed 1 1 (fun _ => "")).1.getD 0 default).startTime <
         fixedSeekTime 1 1 0)) :=
  ⟨by norm_num, by norm_num, totalSegments_pos 1 1 (by norm_num) (by norm_num),
   C7_amended_seek_in_segment 1 1 (fun _ => "") (by norm_num) (by norm_num) 0
     (totalSegments_pos 1 1 (by norm_num) (by norm_num))⟩

/-- C8 counterexample: a run that samples zero frames (the capture loop
body never executes) resolves successfully with zero scenes and zero
diffs — the driver has no distinct `EmptyResultError` rejection path,
refuting the claim that zero sampled frames are reported as a failure. -/
theorem C8_counterexample :
    capturedFrames (-1) 1 (fun _ => []) (fun _ => "") = [] ∧
    processVideoScenesE true (-1) ⟨1, 18, none⟩ (fun _ => []) (fun _ => "") =
      Except.ok ([], []) := by
  norm_num [processVideoScenesE, processVideoScenes, processAdaptive, capturedFrames,
    sampleTimes, sampleTimesAux, computeDiffs, detectScenes, detectCutsAux]

/-- C8 amended: with zero sampled frames the driver resolves successfully
with an empty scene list (there is no `EmptyResultError`); with at least
one frame and no diffs it returns exactly one scene covering
`[0, duration]`. -/
theorem C8_amended_empty_ok_single_scene (d1 d2 r th : ℚ)
    (cd : ℚ → List ℚ) (cu : ℚ → String)
    (h1 : d1 < 0) (h2 : 0 ≤ d2) (h3 : d2 < r) :
    processVideoScenesE true d1 ⟨r, th, none⟩ cd cu = Except.ok ([], []) ∧
    (processAdaptive d2 r th cd cu).1 =
      [{ id := 1, startTime := 0, endTime := d2, thumbnailDataUrl := cu 0 }] ∧
    (processAdaptive d2 r th cd cu).2 = [] := by
  have hr : 0 < r := lt_of_le_of_lt h2 h3
  refine ⟨?_, ?_, ?_⟩
  · have hnil : sampleTimes d1 r = [] := by
      simp [sampleTimes, sampleTimesAux, not_le.mpr h1]
    simp [processVideoScenesE, processVideoScenes, processAdaptive, capturedFrames,
      hnil, computeDiffs, detectScenes, detectCutsAux]
  · have hfl : ⌊d2 / r⌋ = 0 := by
      rw [Int.floor_eq_zero_iff]
      exact ⟨div_nonneg h2 (le_of_lt hr), (div_lt_one hr).mpr h3⟩
    have hst : sampleTimes d2 r = [0] := by
      rw [sampleTimes, hfl]
      simp [sampleTimesAux, h2]
    simp [processAdaptive, capturedFrames, hst, computeDiffs, detectScenes,
      detectCutsAux, finalScene]
  · have hfl : ⌊d2 / r⌋ = 0 := by
      rw [Int.floor_eq_zero_iff]
      exact ⟨div_nonneg h2 (le_of_lt hr), (div_lt_one hr).mpr h3⟩
    have hst : sampleTimes d2 r = [0] := by
      rw [sampleTimes, hfl]
      simp [sampleTimesAux, h2]
    simp [processAdaptive, capturedFrames, hst, computeDiffs]

theorem C8_amended_empty_ok_single_scene_witness :
    (-1 : ℚ) < 0 ∧ (0 : ℚ) ≤ 1/2 ∧ (1/2 : ℚ) < 1 ∧
    (processVideoScenesE true (-1) ⟨1, 18, none⟩ (fun _ => []) (fun _ => "") =
       Except.ok ([], []) ∧
     (processAdaptive (1/2) 1 18 (fun _ => []) (fun _ => "")).1 =
       [{ id := 1, startTime := 0, endTime := 1/2, thumbnailDataUrl := "" }] ∧
     (processAdaptive (1/2) 1 18 (fun _ => []) (fun _ => "")).2 = []) :=
  ⟨by norm_num, by norm_num, by norm_num,
   C8_amended_empty_ok_single_scene (-1) (1/2) 1 18 (fun _ => []) (fun _ => "")
     (by norm_num) (by norm_num) (by norm_num)⟩

/-- C9: the adaptive strategy returns `sampledFrames.length - 1` diffs
(truncated subtraction renders `max(0, · − 1)`), each carrying the later
frame's index and timestamp, in strictly increasing order of both; the
fixed-interval strategy returns zero diffs. -/
theorem C9_diffs_shape (d r th f : ℚ) (cd : ℚ → List ℚ) (cu : ℚ → String)
    (hr : 0 < r) (hf : f ≠ 0) :
    (processAdaptive d r th cd cu).2.length = (capturedFrames d r cd cu).length - 1 ∧
    (∀ j, j < (processAdaptive d r th cd cu).2.length →
      ((processAdaptive d r th cd cu).2.getD j default).frameIndex = j + 1 ∧
      ((processAdaptive d r th cd cu).2.getD j default).timestamp =
        ((capturedFrames d r cd cu).getD (j + 1) default).time) ∧
    List.Chain' (fun a b => a.frameIndex < b.frameIndex) (processAdaptive d r th cd cu).2 ∧
    List.Chain' (fun a b => a.timestamp < b.timestamp) (processAdaptive d r th cd cu).2 ∧
    (processVideoScenes d ⟨r, th, some f⟩ cd cu).2 = [] := by
  have h2eq : (processAdaptive d r th cd cu).2 =
      computeDiffs (capturedFrames d r cd cu) := rfl
  rw [h2eq]
  have hlen : (computeDiffs (capturedFrames d r cd cu)).length =
      (capturedFrames d r cd cu).length - 1 := computeDiffs_length _
  refine ⟨hlen, ?_, ?_, ?_, ?_⟩
  · intro j hj
    rw [hlen] at hj
    rw [computeDiffs_getD _ j hj]
    exact ⟨rfl, rfl⟩
  · rw [List.chain'_iff_get]
    intro i hi
    rw [hlen] at hi
    rw [get_eq_getD _ i (by omega), get_eq_getD _ (i + 1) (by omega),
      computeDiffs_getD _ i (by omega), computeDiffs_getD _ (i + 1) (by omega)]
    show i + 1 < i + 1 + 1
    omega
  · rw [List.chain'_iff_get]
    intro i hi
    rw [hlen] at hi
    rw [get_eq_getD _ i (by omega), get_eq_getD _ (i + 1) (by omega),
      computeDiffs_getD _ i (by omega), computeDiffs_getD _ (i + 1) (by omega)]
    show ((capturedFrames d r cd cu).getD (i + 1) default).time <
      ((capturedFrames d r cd cu).getD (i + 1 + 1) default).time
    exact capturedFrames_mono d r cd cu hr (i + 1) (i + 2) (by omega) (by omega)
  · simp [processVideoScenes, hf, processFixed]

theorem C9_diffs_shape_witness :
    (0 : ℚ) < 1 ∧ (1 : ℚ) ≠ 0 ∧
    ((processAdaptive 2 1 18 (fun _ => []) (fun _ => "")).2.length =
       (capturedFrames 2 1 (fun _ => []) (fun _ => "")).length - 1 ∧
     (∀ j, j < (processAdaptive 2 1 18 (fun _ => []) (fun _ => "")).2.length →
       ((processAdaptive 2 1 18 (fun _ => []) (fun _ => "")).2.getD j
          default).frameIndex = j + 1 ∧
       ((processAdaptive 2 1 18 (fun _ => []) (fun _ => "")).2.getD j
          default).timestamp =
         ((capturedFrames 2 1 (fun _ => []) (fun _ => "")).getD (j + 1) default).time) ∧
     List.Chain' (fun a b => a.frameIndex < b.frameIndex)
       (processAdaptive 2 1 18 (fun _ => []) (fun _ => "")).2 ∧
     List.Chain' (fun a b => a.timestamp < b.timestamp)
       (processAdaptive 2 1 18 (fun _ => []) (fun _ => "")).2 ∧
     (processVideoScenes 2 ⟨1, 18, some 1⟩ (fun _ => []) (fun _ => "")).2 = []) :=
  ⟨by norm_num, by norm_num,
   C9_diffs_shape 2 1 18 1 (fun _ => []) (fun _ => "") (by norm_num) (by norm_num)⟩

/-- C10: for equally sized non-empty RGBA buffers with channel values in
`[0, 255]`, the difference score lies in `[0, 255]` (the luminance weights
sum to 1); consequently every diff emitted over such frames has a score in
`[0, 255]`. -/
theorem C10_score_in_range (ps1 ps2 : List Pixel) (frames : List Frame) (N : Nat)
    (hlen : ps1.length = ps2.length) (hne : 0 < ps1.length)
    (h1 : ∀ p ∈ ps1, pixelInRange p) (h2 : ∀ p ∈ ps2, pixelInRange p)
    (hframes : ∀ fr ∈ frames, ∃ ps : List Pixel, fr.data = flattenRGBA ps ∧
      ps.length = N ∧ 0 < N ∧ ∀ p ∈ ps, pixelInRange p) :
    (0 ≤ avgDiff (flattenRGBA ps1) (flattenRGBA ps2) ∧
     avgDiff (flattenRGBA ps1) (flattenRGBA ps2) ≤ 255) ∧
    (∀ df ∈ computeDiffs frames, 0 ≤ df.diffScore ∧ df.diffScore ≤ 255) := by
  constructor
  · rw [avgDiff_flatten]
    exact ⟨specMeanLumaDiff_nonneg ps1 ps2, specMeanLumaDiff_le ps1 ps2 hlen hne h1 h2⟩
  · intro df hdf
    simp only [computeDiffs, List.mem_map, List.mem_range] at hdf
    obtain ⟨j, hj, rfl⟩ := hdf
    have hjlen : j < frames.length := by omega
    have hjlen1 : j + 1 < frames.length := by omega
    obtain ⟨psa, hda, hla, hNpos, hpa⟩ := hframes _ (getD_mem frames default j hjlen)
    obtain ⟨psb, hdb, hlb, _, hpb⟩ := hframes _ (getD_mem frames default (j + 1) hjlen1)
    show 0 ≤ avgDiff (frames.getD j default).data (frames.getD (j + 1) default).data ∧
      avgDiff (frames.getD j default).data (frames.getD (j + 1) default).data ≤ 255
    rw [hda, hdb, avgDiff_flatten]
    exact ⟨specMeanLumaDiff_nonneg _ _,
      specMeanLumaDiff_le psa psb (by omega) (by omega) hpa hpb⟩

theorem C10_score_in_range_witness :
    ([((0 : ℚ), (0 : ℚ), (0 : ℚ), (0 : ℚ))] : List Pixel).length =
      ([((255 : ℚ), (255 : ℚ), (255 : ℚ), (255 : ℚ))] : List Pixel).length ∧
    0 < ([((0 : ℚ), (0 : ℚ), (0 : ℚ), (0 : ℚ))] : List Pixel).length ∧
    ((0 ≤ avgDiff (flattenRGBA [((0 : ℚ), (0 : ℚ), (0 : ℚ), (0 : ℚ))])
         (flattenRGBA [((255 : ℚ), (255 : ℚ), (255 : ℚ), (255 : ℚ))]) ∧
      avgDiff (flattenRGBA [((0 : ℚ), (0 : ℚ), (0 : ℚ), (0 : ℚ))])
         (flattenRGBA [((255 : ℚ), (255 : ℚ), (255 : ℚ), (255 : ℚ))]) ≤ 255) ∧
     (∀ df ∈ computeDiffs [], 0 ≤ df.diffScore ∧ df.diffScore ≤ 255)) :=
  ⟨rfl, by norm_num,
   C10_score_in_range [((0 : ℚ), (0 : ℚ), (0 : ℚ), (0 : ℚ))]
     [((255 : ℚ), (255 : ℚ), (255 : ℚ), (255 : ℚ))] [] 1 rfl (by norm_num)
     (by intro p hp; simp at hp; subst hp; norm_num [pixelInRange])
     (by intro p hp; simp at hp; subst hp; norm_num [pixelInRange])
     (by intro fr hfr; simp at hfr)⟩

theorem C4_score_is_mean_abs_luminance_witness :
    ([((0 : ℚ), (0 : ℚ), (0 : ℚ), (0 : ℚ))] : List Pixel).length =
      ([((255 : ℚ), (0 : ℚ), (0 : ℚ), (255 : ℚ))] : List Pixel).length ∧
    0 < ([((0 : ℚ), (0 : ℚ), (0 : ℚ), (0 : ℚ))] : List Pixel).length ∧
    (avgDiff (flattenRGBA [((0 : ℚ), (0 : ℚ), (0 : ℚ), (0 : ℚ))])
        (flattenRGBA [((255 : ℚ), (0 : ℚ), (0 : ℚ), (255 : ℚ))]) =
      specMeanLumaDiff [((0 : ℚ), (0 : ℚ), (0 : ℚ), (0 : ℚ))]
        [((255 : ℚ), (0 : ℚ), (0 : ℚ), (255 : ℚ))] ∧
     0 ≤ avgDiff (flattenRGBA [((0 : ℚ), (0 : ℚ), (0 : ℚ), (0 : ℚ))])
        (flattenRGBA [((255 : ℚ), (0 : ℚ), (0 : ℚ), (255 : ℚ))])) :=
  ⟨rfl, by norm_num,
   C4_score_is_mean_abs_luminance _ _ rfl (by norm_num)⟩

end VideoUtils
